import Mathlib

set_option maxRecDepth 100000

/-!
Verification of the temporal-alignment and metric-calibration layer of the
PerseusXR capture-processing repository.

The pose-interpolator logic is embedded from the replica in
`src/tests/test_c2_timestamp_drift.py` (`find_nearest_frames`,
`interpolate_pose`), the translation-extraction logic from
`src/tests/test_m4_dict_mutation.py`, and the config-rewrite pass from
`src/perseusxr_process.py` lines 48-71 (replicated character-for-character in
`src/tests/test_c3_yaml_mutation.py`).  Integer millisecond timestamps are
`Int`; Python floats that only ever hold exactly representable values are
embedded as `ℚ`.
-/

namespace PerseusXR

/-- Embedding of `find_nearest_frames(pose_timestamps, target_ts, window_ms)` from
`src/tests/test_c2_timestamp_drift.py` lines 17-28:
`before = [t for t in pose_timestamps if t <= target_ts]`,
`after = [t for t in pose_timestamps if t >= target_ts]`,
`prev = before[-1] if before and (target_ts - before[-1]) <= window_ms else None`,
`nxt = after[0] if after and (after[0] - target_ts) <= window_ms else None`. -/
def find_nearest_frames (pose_timestamps : List Int) (target_ts window_ms : Int) :
    Option Int × Option Int :=
  let before := pose_timestamps.filter (fun t => decide (t ≤ target_ts))
  let after := pose_timestamps.filter (fun t => decide (target_ts ≤ t))
  let prev := match before.getLast? with
    | some b => if target_ts - b ≤ window_ms then some b else none
    | none => none
  let nxt := match after.head? with
    | some a => if a - target_ts ≤ window_ms then some a else none
    | none => none
  (prev, nxt)

/-- Embedding of `interpolate_pose(pose_timestamps, target_ts, window_ms)` from
`src/tests/test_c2_timestamp_drift.py` lines 31-39: returns `None` when either
bound is `None`, otherwise a successful interpolation (modelled `some true`). -/
def interpolate_pose (pose_timestamps : List Int) (target_ts window_ms : Int) :
    Option Bool :=
  match find_nearest_frames pose_timestamps target_ts window_ms with
  | (some _, some _) => some true
  | _ => none

/-- Embedding of `_make_pose_timestamps(base_time_ms, 10.0, 50.0)` from
`src/tests/test_c2_timestamp_drift.py` lines 45-48, instantiated at the
duration and rate every test uses: `n = int(10.0 * 50.0) = 500` samples at
`base + int(i * (1000.0 / 50.0))`; `i * 20.0` is an exactly representable
binary64 integer for `i < 500`, so the offset is `20 * i`. -/
def make_pose_timestamps (base_time_ms : Int) : List Int :=
  (List.range 500).map fun i => base_time_ms + 20 * (i : Int)

/-- The 30 offsets `int(i * (1000.0 / 3.0))` for `i = 0..29` produced by
`_make_camera_timestamps(base, 10.0, 3.0)` (lines 50-53), evaluated exactly in
IEEE-754 binary64 arithmetic (`1000.0 / 3.0` rounds to
`5864062014805333 / 2^44`, and each product is rounded then truncated). -/
def camera_offsets : List Int :=
  [0, 333, 666, 1000, 1333, 1666, 2000, 2333, 2666, 3000,
   3333, 3666, 4000, 4333, 4666, 5000, 5333, 5666, 6000, 6333,
   6666, 7000, 7333, 7666, 8000, 8333, 8666, 9000, 9333, 9666]

/-- Embedding of `_make_camera_timestamps(base_time_ms, 10.0, 3.0)` from
`src/tests/test_c2_timestamp_drift.py` lines 50-53: `int(10.0 * 3.0) = 30`
camera frames at `base + int(i * (1000.0 / 3.0))`. -/
def make_camera_timestamps (base_time_ms : Int) : List Int :=
  camera_offsets.map fun d => base_time_ms + d

/-- Modelled from the spec: `to_linear_depth(d, x, y)` of `utils/depth_utils.py`
is not under src/ (only its test is).  Per §4.3 the per-sample conversion is
`linear = x / (d*2 - 1 - y)` and a zero denominator must yield exactly `0.0`;
exact rational arithmetic stands in for binary64 values. -/
def to_linear_depth (d x y : ℚ) : ℚ :=
  let denom := d * 2 - 1 - y
  if denom = 0 then 0 else x / denom

/-- Modelled from the spec: `compute_ndc_to_linear_depth_params(near, far)` of
`utils/depth_utils.py` is not under src/.  `far = none` encodes an infinite
far plane (`float('inf')`); per §4.3 the finite case returns
`(-2·far·near/(far-near), -(far+near)/(far-near))` and the infinite case
`(-2·near, -1)`. -/
def compute_ndc_to_linear_depth_params (near : ℚ) (far : Option ℚ) : ℚ × ℚ :=
  match far with
  | some f => (-(2 * f * near) / (f - near), -(f + near) / (f - near))
  | none => (-(2 * near), -1)

/-- Modelled from the spec: `compute_depth_camera_params(left, right, top,
bottom, width, height)` of `utils/depth_utils.py` is not under src/.  Per §4.2:
`fx = width/(left+right)`, `fy = height/(top+bottom)`, `cx = fx*left`,
`cy = fy*top`. -/
def compute_depth_camera_params (left right top bottom width height : ℚ) :
    ℚ × ℚ × ℚ × ℚ :=
  let fx := width / (left + right)
  let fy := height / (top + bottom)
  (fx, fy, fx * left, fy * top)

/-- Image buffers: a rectangular array of rational pixel values. -/
abbrev Image := List (List ℚ)

/-- Modelled from the spec: `apply_clahe_tone_mapping` of
`utils/image_utils.py` is not under src/; a pure, shape-preserving
placeholder stands in — only the dispatcher's unsupported-method path is
verified against it. -/
def apply_clahe_tone_mapping (image : Image) (clip_limit : ℚ) : Image :=
  image

/-- Modelled from the spec: `apply_gamma_correction` of `utils/image_utils.py`
is not under src/; a pure, shape-preserving placeholder stands in. -/
def apply_gamma_correction (image : Image) (gamma : ℚ) : Image :=
  image

/-- Modelled from the spec: `apply_tone_mapping(image, method, **params)` of
`utils/image_utils.py` is not under src/.  Per §4.4 it dispatches to the named
strategies (CLAHE with default clip limit 2.0, gamma) and an unsupported
`method` fails with an error carrying the offending name; the repository's
test expects a `ValueError` matching "Unknown tone mapping method". -/
def apply_tone_mapping (image : Image) (method : String) : Except String Image :=
  if method = "clahe" then Except.ok (apply_clahe_tone_mapping image 2)
  else if method = "gamma" then Except.ok (apply_gamma_correction image 2)
  else Except.error ("Unknown tone mapping method: " ++ method)

/-- A camera-pose record as decoded from JSON; only the translation matters
for the extraction logic under test. -/
structure CameraPose where
  translation : List ℚ
deriving DecidableEq

/-- Embedding of `extract_translation_logic(camera_pose)` from
`src/tests/test_m4_dict_mutation.py` lines 15-25 (the exact replica of
`image_data_io.py` lines 118-121): `transl = camera_pose["translation"]`
aliases the stored list; `transl[2] *= -1` mutates it in place (raising
`IndexError` when the list is shorter than 3 — which makes the following
`len` check dead code); the function returns the aliased list.  The Python
in-place mutation is embedded by returning the updated record alongside the
returned list. -/
def extract_translation_logic (camera_pose : CameraPose) :
    Except String (CameraPose × List ℚ) :=
  let transl := camera_pose.translation
  if 2 < transl.length then
    let mutated := transl.set 2 (-(transl.getD 2 0))
    let result := if mutated.length < 3 then [0, 0, 0] else mutated
    Except.ok (⟨mutated⟩, result)
  else Except.error "IndexError"

/-- Python's anchored string match: whether the first argument is an initial
segment of the second (used to embed both `line.startswith(" ")` and the
anchored step of substring search). -/
def startsWith : List Char → List Char → Bool
  | [], _ => true
  | _ :: _, [] => false
  | p :: ps, c :: cs => p == c && startsWith ps cs

/-- Python's substring containment test `pat in s` over character lists. -/
def containsSub : List Char → List Char → Bool
  | pat, [] => pat.isEmpty
  | pat, c :: cs => startsWith pat (c :: cs) || containsSub pat cs

/-- Python's `line.split(":")[0]`: everything before the first colon (the
whole line when it has no colon). -/
def keyOf (line : List Char) : List Char :=
  line.takeWhile fun c => !(c == ':')

/-- Search pattern `"yuv_to_rgb:"` of the config-rewrite pass. -/
def pat_yuv_section : List Char := "yuv_to_rgb:".toList

/-- Search pattern `"tone_mapping:"` of the config-rewrite pass. -/
def pat_tone_mapping : List Char := "tone_mapping:".toList

/-- Search pattern `"tone_mapping_method:"` of the config-rewrite pass. -/
def pat_tone_mapping_method : List Char := "tone_mapping_method:".toList

/-- Search pattern `"clahe_clip_limit:"` of the config-rewrite pass. -/
def pat_clahe_clip_limit : List Char := "clahe_clip_limit:".toList

/-- Search pattern `"yuv_to_rgb"` (no colon) used by the section-exit check. -/
def pat_yuv_word : List Char := "yuv_to_rgb".toList

/-- Replacement tail `": true\n"` forced onto `tone_mapping` lines. -/
def val_true : List Char := ": true\n".toList

/-- Replacement tail `": \"clahe\"\n"` forced onto `tone_mapping_method`
lines. -/
def val_clahe : List Char := ": \"clahe\"\n".toList

/-- Replacement tail `": 2.0\n"` forced onto `clahe_clip_limit` lines. -/
def val_clip : List Char := ": 2.0\n".toList

/-- Loop body of the config-rewrite pass, `src/perseusxr_process.py` lines
50-68 (replicated in `simulate_config_mutation` of
`src/tests/test_c3_yaml_mutation.py` lines 25-50): given the `in_yuv` state
and one line, produce the next state and the emitted line.  Branches, in
Python order: a line containing `"yuv_to_rgb:"` enters the section and is
kept; inside the section, lines containing `"tone_mapping:"`,
`"tone_mapping_method:"` or `"clahe_clip_limit:"` are rewritten to
`split(":")[0]` plus a forced value; a non-blank unindented line exits the
section (unless it mentions `yuv_to_rgb`) and is kept; anything else is kept
unchanged. -/
def muteStep (in_yuv : Bool) (line : List Char) : Bool × List Char :=
  if containsSub pat_yuv_section line then
    (true, line)
  else if in_yuv && containsSub pat_tone_mapping line then
    (in_yuv, keyOf line ++ val_true)
  else if in_yuv && containsSub pat_tone_mapping_method line then
    (in_yuv, keyOf line ++ val_clahe)
  else if in_yuv && containsSub pat_clahe_clip_limit line then
    (in_yuv, keyOf line ++ val_clip)
  else if (line.any fun c => !c.isWhitespace) && !(startsWith " ".toList line) then
    (if in_yuv && !(containsSub pat_yuv_word line) then false else in_yuv,
      line)
  else
    (in_yuv, line)

/-- Processing loop of the config-rewrite pass: fold `muteStep` over the
lines, emitting the rewritten lines. -/
def mutateFrom (in_yuv : Bool) : List (List Char) → List (List Char)
  | [] => []
  | l :: ls => (muteStep in_yuv l).2 :: mutateFrom (muteStep in_yuv l).1 ls

/-- Embedding of `simulate_config_mutation(config_lines)` from
`src/tests/test_c3_yaml_mutation.py` lines 25-50 (the exact replica of
`src/perseusxr_process.py` lines 48-71): run the rewrite pass starting
outside the `yuv_to_rgb` section. -/
def simulate_config_mutation (config_lines : List (List Char)) :
    List (List Char) :=
  mutateFrom false config_lines

/-- The last element of a `≤`-sorted list is a member. -/
lemma mem_of_getLast?_eq {l : List Int} {b : Int} (hb : l.getLast? = some b) :
    b ∈ l := by
  induction l with
  | nil => simp at hb
  | cons a t ih =>
    cases t with
    | nil => simp at hb; simp [hb]
    | cons c m =>
      rw [List.getLast?_cons_cons] at hb
      exact List.mem_cons_of_mem _ (ih hb)

/-- In a `≤`-sorted list, every element is at most the last one. -/
lemma le_getLast?_of_sorted {l : List Int} (hs : l.Sorted (· ≤ ·)) {b : Int}
    (hb : l.getLast? = some b) : ∀ x ∈ l, x ≤ b := by
  induction l with
  | nil => simp
  | cons a t ih =>
    rw [List.sorted_cons] at hs
    intro x hx
    cases t with
    | nil =>
      simp at hb
      subst hb
      simp at hx
      simp [hx]
    | cons c m =>
      rw [List.getLast?_cons_cons] at hb
      rcases List.mem_cons.mp hx with rfl | hx'
      · exact le_trans (hs.1 _ (mem_of_getLast?_eq hb)) le_rfl
      · exact ih hs.2 hb x hx'

/-- In a `≤`-sorted list, the head is at most every element. -/
lemma head?_le_of_sorted {l : List Int} (hs : l.Sorted (· ≤ ·)) {a : Int}
    (ha : l.head? = some a) : ∀ x ∈ l, a ≤ x := by
  cases l with
  | nil => simp at ha
  | cons c t =>
    simp at ha
    subst ha
    rw [List.sorted_cons] at hs
    intro x hx
    rcases List.mem_cons.mp hx with rfl | hx'
    · exact le_rfl
    · exact hs.1 x hx'

/-- The head of a list is a member. -/
lemma mem_of_head?_eq {l : List Int} {a : Int} (ha : l.head? = some a) : a ∈ l := by
  cases l with
  | nil => simp at ha
  | cons c t => simp at ha; simp [ha]

/-- C1: for a non-decreasing pose-timestamp list, the `prev` component of
`find_nearest_frames` is `some p` exactly when `p` is the greatest timestamp
that is `≤ target` and within the window (and `none` exactly when no such
candidate exists); symmetrically the `next` component is the least timestamp
`≥ target` within the window; and a timestamp equal to the target satisfies
both bounds simultaneously. -/
theorem find_nearest_frames_spec (ts : List Int) (target w : Int)
    (hs : ts.Sorted (· ≤ ·)) :
    (∀ p : Int, (find_nearest_frames ts target w).1 = some p ↔
      (p ∈ ts ∧ p ≤ target ∧ target - p ≤ w ∧
        ∀ q ∈ ts, q ≤ target → target - q ≤ w → q ≤ p)) ∧
    ((find_nearest_frames ts target w).1 = none ↔
      ∀ q ∈ ts, q ≤ target → ¬(target - q ≤ w)) ∧
    (∀ p : Int, (find_nearest_frames ts target w).2 = some p ↔
      (p ∈ ts ∧ target ≤ p ∧ p - target ≤ w ∧
        ∀ q ∈ ts, target ≤ q → q - target ≤ w → p ≤ q)) ∧
    ((find_nearest_frames ts target w).2 = none ↔
      ∀ q ∈ ts, target ≤ q → ¬(q - target ≤ w)) ∧
    (0 ≤ w → target ∈ ts →
      find_nearest_frames ts target w = (some target, some target)) := by
  classical
  set B := ts.filter (fun t => decide (t ≤ target)) with hBdef
  set A := ts.filter (fun t => decide (target ≤ t)) with hAdef
  have hmemB : ∀ x : Int, x ∈ B ↔ x ∈ ts ∧ x ≤ target := by
    intro x
    simp [hBdef, List.mem_filter]
  have hmemA : ∀ x : Int, x ∈ A ↔ x ∈ ts ∧ target ≤ x := by
    intro x
    simp [hAdef, List.mem_filter]
  have hsB : B.Sorted (· ≤ ·) := hs.filter _
  have hsA : A.Sorted (· ≤ ·) := hs.filter _
  have hfst : (find_nearest_frames ts target w).1 =
      (match B.getLast? with
        | some b => if target - b ≤ w then some b else none
        | none => none) := rfl
  have hsnd : (find_nearest_frames ts target w).2 =
      (match A.head? with
        | some a => if a - target ≤ w then some a else none
        | none => none) := rfl
  have prevSome : ∀ p : Int, (find_nearest_frames ts target w).1 = some p ↔
      (p ∈ ts ∧ p ≤ target ∧ target - p ≤ w ∧
        ∀ q ∈ ts, q ≤ target → target - q ≤ w → q ≤ p) := by
    intro p
    rw [hfst]
    rcases hB : B.getLast? with _ | b
    · have hBnil : B = [] := List.getLast?_eq_none_iff.mp hB
      simp only []
      constructor
      · intro h
        exact absurd h (by simp)
      · rintro ⟨hp, hple, _, _⟩
        have : p ∈ B := (hmemB p).mpr ⟨hp, hple⟩
        rw [hBnil] at this
        simp at this
    · have hbB : b ∈ B := mem_of_getLast?_eq hB
      have hbts : b ∈ ts := ((hmemB b).mp hbB).1
      have hble : b ≤ target := ((hmemB b).mp hbB).2
      have hmax : ∀ x ∈ B, x ≤ b := le_getLast?_of_sorted hsB hB
      by_cases hw : target - b ≤ w
      · simp only [if_pos hw]
        constructor
        · intro h
          have hpb : b = p := by simpa using h
          subst hpb
          refine ⟨hbts, hble, hw, ?_⟩
          intro q hq hqle _
          exact hmax q ((hmemB q).mpr ⟨hq, hqle⟩)
        · rintro ⟨hp, hple, hpw, hbest⟩
          have hpB : p ∈ B := (hmemB p).mpr ⟨hp, hple⟩
          have h1 : p ≤ b := hmax p hpB
          have h2 : b ≤ p := hbest b hbts hble hw
          have : p = b := le_antisymm h1 h2
          simp [this]
      · simp only [if_neg hw]
        constructor
        · intro h
          exact absurd h (by simp)
        · rintro ⟨hp, hple, hpw, _⟩
          have hpB : p ∈ B := (hmemB p).mpr ⟨hp, hple⟩
          have h1 : p ≤ b := hmax p hpB
          exfalso
          omega
  have prevNone : (find_nearest_frames ts target w).1 = none ↔
      ∀ q ∈ ts, q ≤ target → ¬(target - q ≤ w) := by
    rw [hfst]
    rcases hB : B.getLast? with _ | b
    · have hBnil : B = [] := List.getLast?_eq_none_iff.mp hB
      simp only []
      constructor
      · intro _ q hq hqle hqw
        have : q ∈ B := (hmemB q).mpr ⟨hq, hqle⟩
        rw [hBnil] at this
        simp at this
      · intro _
        trivial
    · have hbB : b ∈ B := mem_of_getLast?_eq hB
      have hbts : b ∈ ts := ((hmemB b).mp hbB).1
      have hble : b ≤ target := ((hmemB b).mp hbB).2
      have hmax : ∀ x ∈ B, x ≤ b := le_getLast?_of_sorted hsB hB
      by_cases hw : target - b ≤ w
      · simp only [if_pos hw]
        constructor
        · intro h
          exact absurd h (by simp)
        · intro hnone
          exact absurd hw (hnone b hbts hble)
      · simp only [if_neg hw]
        constructor
        · intro _ q hq hqle hqw
          have h1 : q ≤ b := hmax q ((hmemB q).mpr ⟨hq, hqle⟩)
          omega
        · intro _
          trivial
  have nextSome : ∀ p : Int, (find_nearest_frames ts target w).2 = some p ↔
      (p ∈ ts ∧ target ≤ p ∧ p - target ≤ w ∧
        ∀ q ∈ ts, target ≤ q → q - target ≤ w → p ≤ q) := by
    intro p
    rw [hsnd]
    rcases hA : A.head? with _ | a
    · have hAnil : A = [] := List.head?_eq_none_iff.mp hA
      simp only []
      constructor
      · intro h
        exact absurd h (by simp)
      · rintro ⟨hp, hple, _, _⟩
        have : p ∈ A := (hmemA p).mpr ⟨hp, hple⟩
        rw [hAnil] at this
        simp at this
    · have haA : a ∈ A := mem_of_head?_eq hA
      have hats : a ∈ ts := ((hmemA a).mp haA).1
      have hale : target ≤ a := ((hmemA a).mp haA).2
      have hmin : ∀ x ∈ A, a ≤ x := head?_le_of_sorted hsA hA
      by_cases hw : a - target ≤ w
      · simp only [if_pos hw]
        constructor
        · intro h
          have hpa : a = p := by simpa using h
          subst hpa
          refine ⟨hats, hale, hw, ?_⟩
          intro q hq hqle _
          exact hmin q ((hmemA q).mpr ⟨hq, hqle⟩)
        · rintro ⟨hp, hple, hpw, hbest⟩
          have hpA : p ∈ A := (hmemA p).mpr ⟨hp, hple⟩
          have h1 : a ≤ p := hmin p hpA
          have h2 : p ≤ a := hbest a hats hale hw
          have : p = a := le_antisymm h2 h1
          simp [this]
      · simp only [if_neg hw]
        constructor
        · intro h
          exact absurd h (by simp)
        · rintro ⟨hp, hple, hpw, _⟩
          have hpA : p ∈ A := (hmemA p).mpr ⟨hp, hple⟩
          have h1 : a ≤ p := hmin p hpA
          exfalso
          omega
  have nextNone : (find_nearest_frames ts target w).2 = none ↔
      ∀ q ∈ ts, target ≤ q → ¬(q - target ≤ w) := by
    rw [hsnd]
    rcases hA : A.head? with _ | a
    · have hAnil : A = [] := List.head?_eq_none_iff.mp hA
      simp only []
      constructor
      · intro _ q hq hqle hqw
        have : q ∈ A := (hmemA q).mpr ⟨hq, hqle⟩
        rw [hAnil] at this
        simp at this
      · intro _
        trivial
    · have haA : a ∈ A := mem_of_head?_eq hA
      have hats : a ∈ ts := ((hmemA a).mp haA).1
      have hale : target ≤ a := ((hmemA a).mp haA).2
      have hmin : ∀ x ∈ A, a ≤ x := head?_le_of_sorted hsA hA
      by_cases hw : a - target ≤ w
      · simp only [if_pos hw]
        constructor
        · intro h
          exact absurd h (by simp)
        · intro hnone
          exact absurd hw (hnone a hats hale)
      · simp only [if_neg hw]
        constructor
        · intro _ q hq hqle hqw
          have h1 : a ≤ q := hmin q ((hmemA q).mpr ⟨hq, hqle⟩)
          omega
        · intro _
          trivial
  refine ⟨prevSome, prevNone, nextSome, nextNone, ?_⟩
  intro hw htmem
  have h1 : (find_nearest_frames ts target w).1 = some target :=
    (prevSome target).mpr ⟨htmem, le_rfl, by omega, fun q _ hq _ => hq⟩
  have h2 : (find_nearest_frames ts target w).2 = some target :=
    (nextSome target).mpr ⟨htmem, le_rfl, by omega, fun q _ hq _ => hq⟩
  have : find_nearest_frames ts target w =
      ((find_nearest_frames ts target w).1, (find_nearest_frames ts target w).2) := rfl
  rw [this, h1, h2]

/-- Witness for C1 at a concrete sorted stream: `[0, 10, 20]` with target `10`
and window `30` yields `(some 10, some 10)`. -/
theorem find_nearest_frames_spec_witness :
    ([0, 10, 20] : List Int).Sorted (· ≤ ·) ∧
    find_nearest_frames [0, 10, 20] 10 30 = (some 10, some 10) :=
  ⟨by decide,
    (find_nearest_frames_spec [0, 10, 20] 10 30 (by decide)).2.2.2.2
      (by decide) (by decide)⟩

/-- C2: `interpolate_pose` returns `none` exactly when `find_nearest_frames`
returns `none` on at least one side; as a total function it never raises. -/
theorem interpolate_pose_none_iff (ts : List Int) (target w : Int) :
    (interpolate_pose ts target w = none ↔
      ((find_nearest_frames ts target w).1 = none ∨
        (find_nearest_frames ts target w).2 = none)) ∧
    (interpolate_pose ts target w = some true ↔
      ((find_nearest_frames ts target w).1 ≠ none ∧
        (find_nearest_frames ts target w).2 ≠ none)) := by
  unfold interpolate_pose
  rcases h : find_nearest_frames ts target w with ⟨p, n⟩
  rcases p with _ | p <;> rcases n with _ | n <;> simp

/-- C3 counterexample: with the 50 Hz / 10 s pose stream of the tests and the
camera base shifted 29 ms earlier, the very first camera frame IS dropped
(`interpolate_pose` returns `none`), contrary to the claim that a 29 ms shift
must not drop it: no pose timestamp lies at or before `base - 29`, so the
`prev` bound is `none`. -/
theorem drift_29ms_first_frame_dropped :
    interpolate_pose (make_pose_timestamps 1740000000000)
      ((make_camera_timestamps (1740000000000 - 29)).headD 0) 30 = none := by
  decide

/-- C3 amended: a 31 ms-earlier camera base drops the first camera frame, and
a 29 ms-earlier base also drops it — the nearest pose (29 ms away, within the
30 ms window) only yields the `next` bound, while the `prev` bound is `none`
because no pose timestamp precedes the frame. -/
theorem drift_31_and_29_first_frame :
    interpolate_pose (make_pose_timestamps 1740000000000)
      ((make_camera_timestamps (1740000000000 - 31)).headD 0) 30 = none ∧
    interpolate_pose (make_pose_timestamps 1740000000000)
      ((make_camera_timestamps (1740000000000 - 29)).headD 0) 30 = none ∧
    (find_nearest_frames (make_pose_timestamps 1740000000000)
      ((make_camera_timestamps (1740000000000 - 29)).headD 0) 30).2 =
      some 1740000000000 ∧
    (find_nearest_frames (make_pose_timestamps 1740000000000)
      ((make_camera_timestamps (1740000000000 - 31)).headD 0) 30).2 = none := by
  refine ⟨by decide, by decide, by decide, by decide⟩

/-- C4: with the camera base shifted 60,000 ms earlier than the pose base,
`interpolate_pose` under the 30 ms window returns `none` for every one of the
30 camera frames (0 matches out of 30). -/
theorem drift_60s_zero_matched :
    ((make_camera_timestamps (1740000000000 - 60000)).all
      (fun t => (interpolate_pose (make_pose_timestamps 1740000000000) t 30).isNone))
      = true ∧
    (make_camera_timestamps (1740000000000 - 60000)).length = 30 := by
  refine ⟨by decide, by decide⟩

/-- C5: whenever the computed denominator is exactly zero, `to_linear_depth`
returns exactly `0`; otherwise it returns the exact quotient `x / denom` — a
rational number, hence never a non-finite value in this exact-arithmetic
model. -/
theorem to_linear_depth_safe (d x y : ℚ) :
    (d * 2 - 1 - y = 0 → to_linear_depth d x y = 0) ∧
    (d * 2 - 1 - y ≠ 0 → to_linear_depth d x y = x / (d * 2 - 1 - y)) := by
  constructor
  · intro h
    simp [to_linear_depth, h]
  · intro h
    simp [to_linear_depth, h]

/-- Witness for C5 at the repository's own test input
(`test_linear_depth_zero_denom_safe`): `d = 0.5`, `x = 1`, `y = 0` gives a
zero denominator and result `0`. -/
theorem to_linear_depth_safe_witness :
    ((1 : ℚ)/2 * 2 - 1 - 0 = 0) ∧ to_linear_depth (1/2) 1 0 = 0 :=
  ⟨by norm_num, (to_linear_depth_safe (1/2) 1 0).1 (by norm_num)⟩

/-- C6: the finite-far and infinite-far formulas of
`compute_ndc_to_linear_depth_params`, together with the two concrete cases
`near = 0.1, far = 10.0` and `near = 0.1, far = inf`. -/
theorem compute_ndc_params_spec :
    (∀ near f : ℚ, compute_ndc_to_linear_depth_params near (some f) =
      (-(2 * f * near) / (f - near), -(f + near) / (f - near))) ∧
    (∀ near : ℚ, compute_ndc_to_linear_depth_params near none =
      (-(2 * near), -1)) ∧
    compute_ndc_to_linear_depth_params (1/10) (some 10) =
      (-(2 * 10 * (1/10)) / (10 - 1/10), -(10 + 1/10) / (10 - 1/10)) ∧
    compute_ndc_to_linear_depth_params (1/10) (some 10) = (-20/99, -101/99) ∧
    compute_ndc_to_linear_depth_params (1/10) none = (-1/5, -1) := by
  refine ⟨fun near f => rfl, fun near => rfl, rfl, ?_, ?_⟩
  · unfold compute_ndc_to_linear_depth_params
    norm_num
  · unfold compute_ndc_to_linear_depth_params
    norm_num

/-- C7: the defining formulas of `compute_depth_camera_params`; every
symmetric input (`left = right ≠ 0`, `top = bottom ≠ 0`) yields a principal
point at exactly `(width/2, height/2)`; and the concrete symmetric input
`(1,1,1,1,256,256)` gives `fx = fy = cx = cy = 128`. -/
theorem compute_depth_camera_params_spec :
    (∀ l r t b wd ht : ℚ, compute_depth_camera_params l r t b wd ht =
      (wd / (l + r), ht / (t + b), wd / (l + r) * l, ht / (t + b) * t)) ∧
    (∀ l t wd ht : ℚ, l ≠ 0 → t ≠ 0 →
      (compute_depth_camera_params l l t t wd ht).2.2.1 = wd / 2 ∧
      (compute_depth_camera_params l l t t wd ht).2.2.2 = ht / 2) ∧
    compute_depth_camera_params 1 1 1 1 256 256 = (128, 128, 128, 128) := by
  refine ⟨fun l r t b wd ht => rfl, ?_, by norm_num [compute_depth_camera_params]⟩
  intro l t wd ht hl ht0
  constructor
  · show wd / (l + l) * l = wd / 2
    rw [div_mul_eq_mul_div, mul_comm wd l, show l + l = l * 2 by ring]
    exact mul_div_mul_left wd 2 hl
  · show ht / (t + t) * t = ht / 2
    rw [div_mul_eq_mul_div, mul_comm ht t, show t + t = t * 2 by ring]
    exact mul_div_mul_left ht 2 ht0

/-- Witness for C7 at the symmetric input `(1, 1, 1, 1, 256, 256)`. -/
theorem compute_depth_camera_params_spec_witness :
    (1 : ℚ) ≠ 0 ∧
    (compute_depth_camera_params 1 1 1 1 256 256).2.2.1 = 256 / 2 ∧
    (compute_depth_camera_params 1 1 1 1 256 256).2.2.2 = 256 / 2 :=
  ⟨by norm_num,
    (compute_depth_camera_params_spec.2.1 1 1 256 256 (by norm_num) (by norm_num))⟩

/-- C8: for every image and every method name that is not a supported
strategy, `apply_tone_mapping` fails with an error whose message carries the
offending method name, and never returns an image. -/
theorem apply_tone_mapping_unsupported (image : Image) (method : String)
    (hc : method ≠ "clahe") (hg : method ≠ "gamma") :
    apply_tone_mapping image method =
      Except.error ("Unknown tone mapping method: " ++ method) := by
  simp [apply_tone_mapping, hc, hg]

/-- Witness for C8 at the repository's own test input: method
`"nonexistent"` on an all-zero image fails with the error naming it. -/
theorem apply_tone_mapping_unsupported_witness :
    apply_tone_mapping [[0, 0], [0, 0]] "nonexistent" =
      Except.error ("Unknown tone mapping method: " ++ "nonexistent") :=
  apply_tone_mapping_unsupported [[0, 0], [0, 0]] "nonexistent"
    (by decide) (by decide)

/-- C9 (code bug, finding M-4): `extract_translation_logic` mutates the
caller's record in place, so two calls on the same record disagree — the
second call flips the Z component back to its original value — violating the
purity requirement that repeated calls on the same input produce identical
results and never mutate the caller's data. -/
theorem extract_translation_mutates :
    extract_translation_logic ⟨[3/100, 0, -1/100]⟩ =
      Except.ok (⟨[3/100, 0, 1/100]⟩, [3/100, 0, 1/100]) ∧
    extract_translation_logic ⟨[3/100, 0, 1/100]⟩ =
      Except.ok (⟨[3/100, 0, -1/100]⟩, [3/100, 0, -1/100]) ∧
    (⟨[3/100, 0, 1/100]⟩ : CameraPose) ≠ ⟨[3/100, 0, -1/100]⟩ ∧
    ([3/100, 0, -1/100] : List ℚ) = (⟨[3/100, 0, -1/100]⟩ : CameraPose).translation := by
  refine ⟨?_, ?_, ?_, rfl⟩
  · unfold extract_translation_logic
    norm_num [List.set, List.getD]
  · unfold extract_translation_logic
    norm_num [List.set, List.getD]
  · intro h
    rw [CameraPose.mk.injEq] at h
    norm_num at h

/-- Characters of a successfully anchored pattern occur in the text. -/
lemma startsWith_mem : ∀ {pat s : List Char}, startsWith pat s = true →
    ∀ c ∈ pat, c ∈ s := by
  intro pat
  induction pat with
  | nil =>
    intro s _ c hc
    simp at hc
  | cons p ps ih =>
    intro s h c hc
    cases s with
    | nil => simp [startsWith] at h
    | cons a as =>
      simp only [startsWith, Bool.and_eq_true, beq_iff_eq] at h
      rcases List.mem_cons.mp hc with rfl | hc'
      · rw [h.1]
        exact List.mem_cons_self _ _
      · exact List.mem_cons_of_mem _ (ih h.2 c hc')

/-- Characters of a successfully found substring occur in the text. -/
lemma containsSub_mem : ∀ {pat s : List Char}, containsSub pat s = true →
    ∀ c ∈ pat, c ∈ s := by
  intro pat s
  induction s with
  | nil =>
    intro h c hc
    cases pat with
    | nil => simp at hc
    | cons x xs => simp [containsSub, List.isEmpty] at h
  | cons a as ih =>
    intro h c hc
    simp only [containsSub, Bool.or_eq_true] at h
    rcases h with h | h
    · exact startsWith_mem h c hc
    · exact List.mem_cons_of_mem _ (ih h c hc)

/-- In a text with a unique colon, a pattern of the form `name ++ ":"`
matches at the very start exactly when `name` is the whole segment before
the colon. -/
lemma startsWith_key_colon : ∀ (name pre tail : List Char), ':' ∉ name →
    ':' ∉ pre →
    (startsWith (name ++ [':']) (pre ++ ':' :: tail) = true ↔ name = pre) := by
  intro name
  induction name with
  | nil =>
    intro pre tail _ hp
    cases pre with
    | nil => simp [startsWith]
    | cons p ps =>
      have hne : (':' == p) = false := by
        rw [beq_eq_false_iff_ne]
        intro h
        rw [h] at hp
        exact hp (List.mem_cons_self _ _)
      simp [startsWith, hne]
  | cons n ns ih =>
    intro pre tail hn hp
    have hn' : ':' ∉ ns := fun h => hn (List.mem_cons_of_mem _ h)
    cases pre with
    | nil =>
      have hne : (n == ':') = false := by
        rw [beq_eq_false_iff_ne]
        intro h
        rw [← h] at hn
        exact hn (List.mem_cons_self _ _)
      simp [startsWith, hne]
    | cons p ps =>
      have hp' : ':' ∉ ps := fun h => hp (List.mem_cons_of_mem _ h)
      constructor
      · intro h
        simp only [List.cons_append, startsWith, Bool.and_eq_true,
          beq_iff_eq] at h
        rw [h.1, (ih ps tail hn' hp').mp h.2]
      · intro h
        injection h with h1 h2
        simp only [List.cons_append, startsWith, Bool.and_eq_true, beq_iff_eq]
        exact ⟨h1, (ih ps tail hn' hp').mpr h2⟩

/-- In a text with a unique colon, a pattern of the form `name ++ ":"`
occurs as a substring exactly when `name` is a suffix of the segment before
the colon. -/
lemma containsSub_key_colon : ∀ (pre name tail : List Char), ':' ∉ name →
    ':' ∉ pre → ':' ∉ tail →
    (containsSub (name ++ [':']) (pre ++ ':' :: tail) = true ↔
      name <:+ pre) := by
  intro pre
  induction pre with
  | nil =>
    intro name tail hn _ ht
    simp only [List.nil_append, containsSub, Bool.or_eq_true]
    constructor
    · rintro (h | h)
      · have hname : name = [] := (startsWith_key_colon name [] tail hn
          (by simp)).mp h
        subst hname
        exact List.nil_suffix
      · exfalso
        exact ht (containsSub_mem h ':' (by simp))
    · intro hsuf
      left
      rcases hsuf with ⟨t, ht'⟩
      have hname : name = [] := (List.append_eq_nil.mp ht').2
      subst hname
      simp [startsWith]
  | cons p ps ih =>
    intro name tail hn hp ht
    have hp' : ':' ∉ ps := fun h => hp (List.mem_cons_of_mem _ h)
    simp only [List.cons_append, containsSub, Bool.or_eq_true]
    constructor
    · rintro (h | h)
      · have hname : name = p :: ps :=
          (startsWith_key_colon name (p :: ps) tail hn hp).mp h
        subst hname
        exact List.suffix_refl _
      · rcases (ih name tail hn hp' ht).mp h with ⟨t, ht2⟩
        exact ⟨p :: t, by rw [List.cons_append, ht2]⟩
    · rintro ⟨t, ht'⟩
      cases t with
      | nil =>
        left
        have hname : name = p :: ps := by simpa using ht'
        exact (startsWith_key_colon name (p :: ps) tail hn hp).mpr hname
      | cons x xs =>
        right
        injection ht' with _ h2
        exact (ih name tail hn hp' ht).mpr ⟨xs, h2⟩

/-- Everything before the unique colon is exactly what `split(":")[0]`
keeps. -/
lemma keyOf_split : ∀ (pre tail : List Char), ':' ∉ pre →
    keyOf (pre ++ ':' :: tail) = pre := by
  intro pre
  induction pre with
  | nil =>
    intro tail _
    simp [keyOf, List.takeWhile_cons]
  | cons p ps ih =>
    intro tail hp
    have hpne : (p == ':') = false := by
      rw [beq_eq_false_iff_ne]
      intro h
      rw [← h] at hp
      exact hp (List.mem_cons_self _ _)
    simp [keyOf, List.cons_append, List.takeWhile_cons, hpne]
    exact ih tail fun h => hp (List.mem_cons_of_mem _ h)

/-- A line with at most one colon that does contain a colon splits uniquely
into a colon-free part, the colon, and a colon-free rest. -/
lemma colon_split : ∀ {l : List Char}, l.count ':' ≤ 1 → ':' ∈ l →
    ∃ pre tail, l = pre ++ ':' :: tail ∧ ':' ∉ pre ∧ ':' ∉ tail := by
  intro l
  induction l with
  | nil =>
    intro _ h
    simp at h
  | cons c cs ih =>
    intro hcount hmem
    by_cases hc : c = ':'
    · subst hc
      refine ⟨[], cs, rfl, by simp, ?_⟩
      have hzero : cs.count ':' = 0 := by
        simp [List.count_cons] at hcount
        omega
      exact List.count_eq_zero.mp hzero
    · have hmem' : ':' ∈ cs := by
        rcases List.mem_cons.mp hmem with h | h
        · exact absurd h.symm hc
        · exact h
      have hcount' : cs.count ':' ≤ 1 := by
        have hcf : (c == ':') = false := by
          rw [beq_eq_false_iff_ne]
          exact hc
        simp [List.count_cons, hcf] at hcount
        omega
      rcases ih hcount' hmem' with ⟨pre, tail, heq, hpre, htail⟩
      refine ⟨c :: pre, tail, by rw [heq, List.cons_append], ?_, htail⟩
      intro h
      rcases List.mem_cons.mp h with h | h
      · exact hc h.symm
      · exact hpre h

/-- One rewrite step is a fixpoint on its own output when the input line has
at most one colon: re-running `muteStep` from the same state reproduces the
same state and line. -/
lemma muteStep_idem (b : Bool) (l : List Char) (hcount : l.count ':' ≤ 1) :
    muteStep b ((muteStep b l).2) = muteStep b l := by
  by_cases h1 : containsSub pat_yuv_section l = true
  · have h2 : (muteStep b l).2 = l := by simp [muteStep, h1]
    rw [h2]
  · rw [Bool.not_eq_true] at h1
    by_cases h2 : (b && containsSub pat_tone_mapping l) = true
    · obtain ⟨hb, hp2⟩ : b = true ∧ containsSub pat_tone_mapping l = true := by
        rw [← Bool.and_eq_true]
        exact h2
      have hcl : ':' ∈ l := containsSub_mem hp2 ':' (by decide)
      obtain ⟨pre, tail, rfl, hpre, htail⟩ := colon_split hcount hcl
      have hkey : keyOf (pre ++ ':' :: tail) = pre := keyOf_split pre tail hpre
      have epat1 : pat_yuv_section = "yuv_to_rgb".toList ++ [':'] := by
        decide
      have epat2 : pat_tone_mapping = "tone_mapping".toList ++ [':'] := by
        decide
      have hs2 : "tone_mapping".toList <:+ pre := by
        rw [epat2] at hp2
        exact (containsSub_key_colon pre _ tail (by decide) hpre htail).mp hp2
      have hns1 : ¬("yuv_to_rgb".toList <:+ pre) := by
        intro hsf
        have hcc := (containsSub_key_colon pre _ tail (by decide) hpre
          htail).mpr hsf
        rw [← epat1] at hcc
        rw [h1] at hcc
        exact Bool.false_ne_true hcc
      have hlit : val_true = ':' :: " true\n".toList := by decide
      have ht' : ':' ∉ " true\n".toList := by decide
      have hfix : ∀ rest : List Char, ':' ∉ rest →
          muteStep b (pre ++ ':' :: rest) = (b, pre ++ val_true) := by
        intro rest hrest
        have hkey' : keyOf (pre ++ ':' :: rest) = pre :=
          keyOf_split pre rest hpre
        have o1 : containsSub pat_yuv_section (pre ++ ':' :: rest) = false := by
          rw [epat1]
          cases hcs : containsSub ("yuv_to_rgb".toList ++ [':'])
              (pre ++ ':' :: rest) with
          | false => rfl
          | true =>
            exact absurd ((containsSub_key_colon pre _ rest (by decide) hpre
              hrest).mp hcs) hns1
        have o2 : containsSub pat_tone_mapping (pre ++ ':' :: rest) = true := by
          rw [epat2]
          exact (containsSub_key_colon pre _ rest (by decide) hpre hrest).mpr hs2
        simp [muteStep, o1, hb, o2, hkey']
      have h1st := hfix tail htail
      have h2nd := hfix (" true\n".toList) ht'
      rw [← hlit] at h2nd
      rw [h1st]
      exact h2nd
    · rw [Bool.not_eq_true] at h2
      by_cases h3 : (b && containsSub pat_tone_mapping_method l) = true
      · obtain ⟨hb, hp3⟩ :
            b = true ∧ containsSub pat_tone_mapping_method l = true := by
          rw [← Bool.and_eq_true]
          exact h3
        have hp2f : containsSub pat_tone_mapping l = false := by
          cases hcs : containsSub pat_tone_mapping l with
          | false => rfl
          | true =>
            rw [hb, hcs] at h2
            simp at h2
        have hcl : ':' ∈ l := containsSub_mem hp3 ':' (by decide)
        obtain ⟨pre, tail, rfl, hpre, htail⟩ := colon_split hcount hcl
        have hkey : keyOf (pre ++ ':' :: tail) = pre :=
          keyOf_split pre tail hpre
        have epat1 : pat_yuv_section = "yuv_to_rgb".toList ++ [':'] := by
          decide
        have epat2 : pat_tone_mapping =
            "tone_mapping".toList ++ [':'] := by decide
        have epat3 : pat_tone_mapping_method =
            "tone_mapping_method".toList ++ [':'] := by decide
        have hs3 : "tone_mapping_method".toList <:+ pre := by
          rw [epat3] at hp3
          exact (containsSub_key_colon pre _ tail (by decide) hpre htail).mp hp3
        have hns1 : ¬("yuv_to_rgb".toList <:+ pre) := by
          intro hsf
          have hcc := (containsSub_key_colon pre _ tail (by decide) hpre
            htail).mpr hsf
          rw [← epat1] at hcc
          rw [h1] at hcc
          exact Bool.false_ne_true hcc
        have hns2 : ¬("tone_mapping".toList <:+ pre) := by
          intro hsf
          have hcc := (containsSub_key_colon pre _ tail (by decide) hpre
            htail).mpr hsf
          rw [← epat2] at hcc
          rw [hp2f] at hcc
          exact Bool.false_ne_true hcc
        have hlit : val_clahe =
            ':' :: " \"clahe\"\n".toList := by decide
        have ht' : ':' ∉ " \"clahe\"\n".toList := by decide
        have hfix : ∀ rest : List Char, ':' ∉ rest →
            muteStep b (pre ++ ':' :: rest) = (b, pre ++ val_clahe) := by
          intro rest hrest
          have hkey' : keyOf (pre ++ ':' :: rest) = pre :=
            keyOf_split pre rest hpre
          have o1 : containsSub pat_yuv_section (pre ++ ':' :: rest) = false := by
            rw [epat1]
            cases hcs : containsSub ("yuv_to_rgb".toList ++ [':'])
                (pre ++ ':' :: rest) with
            | false => rfl
            | true =>
              exact absurd ((containsSub_key_colon pre _ rest (by decide) hpre
                hrest).mp hcs) hns1
          have o2 : containsSub pat_tone_mapping (pre ++ ':' :: rest) = false := by
            rw [epat2]
            cases hcs : containsSub ("tone_mapping".toList ++ [':'])
                (pre ++ ':' :: rest) with
            | false => rfl
            | true =>
              exact absurd ((containsSub_key_colon pre _ rest (by decide) hpre
                hrest).mp hcs) hns2
          have o3 : containsSub pat_tone_mapping_method
              (pre ++ ':' :: rest) = true := by
            rw [epat3]
            exact (containsSub_key_colon pre _ rest (by decide) hpre hrest).mpr hs3
          simp [muteStep, o1, hb, o2, o3, hkey']
        have h1st := hfix tail htail
        have h2nd := hfix (" \"clahe\"\n".toList) ht'
        rw [← hlit] at h2nd
        rw [h1st]
        exact h2nd
      · rw [Bool.not_eq_true] at h3
        by_cases h4 : (b && containsSub pat_clahe_clip_limit l) = true
        · obtain ⟨hb, hp4⟩ :
              b = true ∧ containsSub pat_clahe_clip_limit l = true := by
            rw [← Bool.and_eq_true]
            exact h4
          have hp2f : containsSub pat_tone_mapping l = false := by
            cases hcs : containsSub pat_tone_mapping l with
            | false => rfl
            | true =>
              rw [hb, hcs] at h2
              simp at h2
          have hp3f : containsSub pat_tone_mapping_method l = false := by
            cases hcs : containsSub pat_tone_mapping_method l with
            | false => rfl
            | true =>
              rw [hb, hcs] at h3
              simp at h3
          have hcl : ':' ∈ l := containsSub_mem hp4 ':' (by decide)
          obtain ⟨pre, tail, rfl, hpre, htail⟩ := colon_split hcount hcl
          have hkey : keyOf (pre ++ ':' :: tail) = pre :=
            keyOf_split pre tail hpre
          have epat1 : pat_yuv_section =
              "yuv_to_rgb".toList ++ [':'] := by decide
          have epat2 : pat_tone_mapping =
              "tone_mapping".toList ++ [':'] := by decide
          have epat3 : pat_tone_mapping_method =
              "tone_mapping_method".toList ++ [':'] := by decide
          have epat4 : pat_clahe_clip_limit =
              "clahe_clip_limit".toList ++ [':'] := by decide
          have hs4 : "clahe_clip_limit".toList <:+ pre := by
            rw [epat4] at hp4
            exact (containsSub_key_colon pre _ tail (by decide) hpre
              htail).mp hp4
          have hns1 : ¬("yuv_to_rgb".toList <:+ pre) := by
            intro hsf
            have hcc := (containsSub_key_colon pre _ tail (by decide) hpre
              htail).mpr hsf
            rw [← epat1] at hcc
            rw [h1] at hcc
            exact Bool.false_ne_true hcc
          have hns2 : ¬("tone_mapping".toList <:+ pre) := by
            intro hsf
            have hcc := (containsSub_key_colon pre _ tail (by decide) hpre
              htail).mpr hsf
            rw [← epat2] at hcc
            rw [hp2f] at hcc
            exact Bool.false_ne_true hcc
          have hns3 : ¬("tone_mapping_method".toList <:+ pre) := by
            intro hsf
            have hcc := (containsSub_key_colon pre _ tail (by decide) hpre
              htail).mpr hsf
            rw [← epat3] at hcc
            rw [hp3f] at hcc
            exact Bool.false_ne_true hcc
          have hlit : val_clip = ':' :: " 2.0\n".toList := by decide
          have ht' : ':' ∉ " 2.0\n".toList := by decide
          have hfix : ∀ rest : List Char, ':' ∉ rest →
              muteStep b (pre ++ ':' :: rest) = (b, pre ++ val_clip) := by
            intro rest hrest
            have hkey' : keyOf (pre ++ ':' :: rest) = pre :=
              keyOf_split pre rest hpre
            have o1 : containsSub pat_yuv_section
                (pre ++ ':' :: rest) = false := by
              rw [epat1]
              cases hcs : containsSub ("yuv_to_rgb".toList ++ [':'])
                  (pre ++ ':' :: rest) with
              | false => rfl
              | true =>
                exact absurd ((containsSub_key_colon pre _ rest (by decide) hpre
                  hrest).mp hcs) hns1
            have o2 : containsSub pat_tone_mapping
                (pre ++ ':' :: rest) = false := by
              rw [epat2]
              cases hcs : containsSub ("tone_mapping".toList ++ [':'])
                  (pre ++ ':' :: rest) with
              | false => rfl
              | true =>
                exact absurd ((containsSub_key_colon pre _ rest (by decide) hpre
                  hrest).mp hcs) hns2
            have o3 : containsSub pat_tone_mapping_method
                (pre ++ ':' :: rest) = false := by
              rw [epat3]
              cases hcs : containsSub ("tone_mapping_method".toList ++ [':'])
                  (pre ++ ':' :: rest) with
              | false => rfl
              | true =>
                exact absurd ((containsSub_key_colon pre _ rest (by decide) hpre
                  hrest).mp hcs) hns3
            have o4 : containsSub pat_clahe_clip_limit
                (pre ++ ':' :: rest) = true := by
              rw [epat4]
              exact (containsSub_key_colon pre _ rest (by decide) hpre
                hrest).mpr hs4
            simp [muteStep, o1, hb, o2, o3, o4, hkey']
          have h1st := hfix tail htail
          have h2nd := hfix (" 2.0\n".toList) ht'
          rw [← hlit] at h2nd
          rw [h1st]
          exact h2nd
        · rw [Bool.not_eq_true] at h4
          have h5 : (muteStep b l).2 = l := by
            simp only [muteStep, h1, h2, h3, h4]
            all_goals repeat split
            all_goals try rfl
            all_goals simp_all
            all_goals repeat split
            all_goals rfl
          rw [h5]

/-- Running the rewrite pass twice from any shared state equals running it
once, when every line has at most one colon. -/
lemma mutateFrom_idem : ∀ (ls : List (List Char)) (b : Bool),
    (∀ l ∈ ls, l.count ':' ≤ 1) →
    mutateFrom b (mutateFrom b ls) = mutateFrom b ls := by
  intro ls
  induction ls with
  | nil =>
    intro b _
    rfl
  | cons l ls ih =>
    intro b h
    have hstep := muteStep_idem b l (h l (List.mem_cons_self _ _))
    simp only [mutateFrom]
    rw [hstep]
    rw [ih (muteStep b l).1 fun x hx => h x (List.mem_cons_of_mem _ hx)]

/-- C10 counterexample: the rewrite pass is NOT idempotent in general.  For a
section line whose value itself contains the pattern `tone_mapping:`, the
first pass rewrites the line to `...: true` via the `tone_mapping:` branch,
and the second pass — no longer seeing `tone_mapping:` in the rewritten line —
rewrites it again to `...: "clahe"` via the `tone_mapping_method:` branch. -/
theorem config_mutation_not_idempotent :
    simulate_config_mutation (simulate_config_mutation
      ["yuv_to_rgb:\n".toList,
       "  tone_mapping_method: tone_mapping: x\n".toList]) ≠
    simulate_config_mutation
      ["yuv_to_rgb:\n".toList,
       "  tone_mapping_method: tone_mapping: x\n".toList] := by
  decide

/-- C10 amended: the rewrite pass is idempotent on every list of lines in
which each line contains at most one colon character (in particular on any
config whose targeted keys appear only in key position, values free of
colons): applying the transformation a second time to its own output returns
that output unchanged. -/
theorem config_mutation_idem (config_lines : List (List Char))
    (h : ∀ l ∈ config_lines, l.count ':' ≤ 1) :
    simulate_config_mutation (simulate_config_mutation config_lines) =
      simulate_config_mutation config_lines :=
  mutateFrom_idem config_lines false h

/-- Witness for the amended C10 on the concrete config of the repository's
`test_01_file_is_permanently_altered`. -/
theorem config_mutation_idem_witness :
    (∀ l ∈ ["yuv_to_rgb:\n".toList,
            "  tone_mapping: false\n".toList,
            "  tone_mapping_method: \"gamma\"\n".toList,
            "  clahe_clip_limit: 3.5\n".toList,
            "depth_to_linear:\n".toList,
            "  clip_near_m: 0.1\n".toList], l.count ':' ≤ 1) ∧
    simulate_config_mutation (simulate_config_mutation
      ["yuv_to_rgb:\n".toList,
       "  tone_mapping: false\n".toList,
       "  tone_mapping_method: \"gamma\"\n".toList,
       "  clahe_clip_limit: 3.5\n".toList,
       "depth_to_linear:\n".toList,
       "  clip_near_m: 0.1\n".toList]) =
      simulate_config_mutation
        ["yuv_to_rgb:\n".toList,
         "  tone_mapping: false\n".toList,
         "  tone_mapping_method: \"gamma\"\n".toList,
         "  clahe_clip_limit: 3.5\n".toList,
         "depth_to_linear:\n".toList,
         "  clip_near_m: 0.1\n".toList] :=
  ⟨by decide, config_mutation_idem _ (by decide)⟩

end PerseusXR
